import Mathlib

/-!
Shallow embedding of the uniform inventory system
(`inventory_system/db.py`, `operations.py`, `cli.py`, `web.py`).

The SQLite database is modelled as a `DB` record of four tables (lists of
rows, kept in rowid = insertion order), plus the AUTOINCREMENT counters and
a wall clock supplying `CURRENT_TIMESTAMP` values.  Each Python operation
that runs inside `with get_connection() as conn:` is a Lean function from
`DB` to `DB × result`; sqlite3's context manager commits on success and
rolls back on an exception, so a failing operation returns the original
`DB` unchanged together with the error.
-/

namespace Inventory

/-- A row of the `employees` table: `id, name, role, badge` with
`badge TEXT UNIQUE` (NULL badges never conflict). -/
structure EmployeeRow where
  id : Nat
  name : String
  role : String
  badge : Option String
  deriving Repr, DecidableEq

/-- A row of the `items` table: `id, name, size, category, min_stock`,
with `UNIQUE(name, size, category)`. -/
structure ItemRow where
  id : Nat
  name : String
  size : String
  category : String
  min_stock : Int
  deriving Repr, DecidableEq

/-- A row of the `stock_levels` table: `item_id PRIMARY KEY, quantity`. -/
structure StockLevelRow where
  item_id : Nat
  quantity : Int
  deriving Repr, DecidableEq

/-- A row of the `transactions` table: `id, item_id, employee_id, type,
quantity, note, created_at`.  `created_at TIMESTAMP DEFAULT
CURRENT_TIMESTAMP` is modelled as a `Nat` stamped from the database
clock. -/
structure TransactionRow where
  id : Nat
  item_id : Nat
  employee_id : Option Nat
  type : String
  quantity : Int
  note : String
  created_at : Nat
  deriving Repr, DecidableEq

/-- The whole SQLite database file plus its clock.  The `next_*` fields
model the AUTOINCREMENT id allocators of the three tables that have one. -/
structure DB where
  employees : List EmployeeRow
  items : List ItemRow
  stock_levels : List StockLevelRow
  transactions : List TransactionRow
  next_employee_id : Nat
  next_item_id : Nat
  next_transaction_id : Nat
  now : Nat
  deriving Repr, DecidableEq

/-- The freshly initialised database produced by `init_db()`: four empty
tables, AUTOINCREMENT counters at 1. -/
def DB.empty : DB :=
  { employees := [], items := [], stock_levels := [], transactions := []
    next_employee_id := 1, next_item_id := 1, next_transaction_id := 1, now := 0 }

/-- Errors surfaced by the operations: `valueError` models Python
`ValueError` raised by the lookup helpers, `integrityError` models
`sqlite3.IntegrityError` raised on a foreign-key violation. -/
inductive Err where
  | valueError (msg : String)
  | integrityError (msg : String)
  deriving Repr, DecidableEq

/-- `SELECT 1 FROM items WHERE id = ?` — foreign-key target check. -/
def itemExists (db : DB) (iid : Nat) : Bool :=
  db.items.any (fun i => i.id == iid)

/-- `SELECT 1 FROM employees WHERE id = ?` — foreign-key target check. -/
def employeeExists (db : DB) (eid : Nat) : Bool :=
  db.employees.any (fun e => e.id == eid)

/-- First `stock_levels` row for an item, if any (`item_id` is the primary
key, so in any state SQLite can produce there is at most one). -/
def findStock (db : DB) (iid : Nat) : Option StockLevelRow :=
  db.stock_levels.find? (fun s => s.item_id == iid)

/-- The current on-hand quantity read from the `stock_levels` projection;
0 when the row is absent. -/
def stockQty (db : DB) (iid : Nat) : Int :=
  ((findStock db iid).map (fun s => s.quantity)).getD 0

/-- `INSERT INTO stock_levels (item_id, quantity) VALUES (?, 0)
ON CONFLICT(item_id) DO NOTHING` — create the projection row with
quantity 0 unless one already exists. -/
def ensureStockRow (db : DB) (iid : Nat) : DB :=
  if db.stock_levels.any (fun s => s.item_id == iid) then db
  else { db with stock_levels := db.stock_levels ++ [⟨iid, 0⟩] }

/-- `UPDATE stock_levels SET quantity = quantity + ? WHERE item_id = ?`. -/
def bumpStock (db : DB) (iid : Nat) (q : Int) : DB :=
  { db with
    stock_levels := db.stock_levels.map (fun s =>
      if s.item_id == iid then { s with quantity := s.quantity + q } else s) }

/-- `add_employee(name, role, badge)` (`operations.py`):
`INSERT INTO employees ... ON CONFLICT(badge) DO UPDATE SET
name=excluded.name, role=excluded.role RETURNING ...`.
A `NULL` badge never conflicts (SQLite unique indexes treat NULLs as
distinct), so a badge-less call always inserts a fresh row. -/
def add_employee (db : DB) (name role : String) (badge : Option String) :
    DB × EmployeeRow :=
  match badge with
  | none =>
    let row : EmployeeRow := ⟨db.next_employee_id, name, role, none⟩
    ({ db with employees := db.employees ++ [row]
               next_employee_id := db.next_employee_id + 1 }, row)
  | some b =>
    match db.employees.find? (fun e => e.badge == some b) with
    | some e =>
      let e' : EmployeeRow := { e with name := name, role := role }
      ({ db with employees := db.employees.map (fun x =>
           if x.badge == some b then { x with name := name, role := role } else x) },
       e')
    | none =>
      let row : EmployeeRow := ⟨db.next_employee_id, name, role, some b⟩
      ({ db with employees := db.employees ++ [row]
                 next_employee_id := db.next_employee_id + 1 }, row)

/-- `get_employee(name)` (`operations.py`): `SELECT * FROM employees WHERE
name = ?`, `fetchone()` — the first row in rowid order; raises
`ValueError` when absent.  Read-only. -/
def get_employee (db : DB) (name : String) : Except Err EmployeeRow :=
  match db.employees.find? (fun e => e.name == name) with
  | some e => .ok e
  | none => .error (.valueError ("未找到员工：" ++ name))

/-- Does an `items` row carry this (name, size, category) identity key? -/
def matchesTriple (n s c : String) (i : ItemRow) : Bool :=
  i.name == n && i.size == s && i.category == c

/-- `add_item(name, size, category, min_stock)` (`operations.py`):
`INSERT INTO items ... ON CONFLICT(name, size, category) DO UPDATE SET
min_stock=excluded.min_stock RETURNING ...`, then the defensive
`INSERT INTO stock_levels ... ON CONFLICT(item_id) DO NOTHING` for the
returned id.  There is no validation of `min_stock`. -/
def add_item (db : DB) (name size category : String) (min_stock : Int) :
    DB × ItemRow :=
  match db.items.find? (matchesTriple name size category) with
  | some i =>
    let i' : ItemRow := { i with min_stock := min_stock }
    let db' := { db with items := db.items.map (fun x =>
      if matchesTriple name size category x then { x with min_stock := min_stock } else x) }
    (ensureStockRow db' i'.id, i')
  | none =>
    let row : ItemRow := ⟨db.next_item_id, name, size, category, min_stock⟩
    let db' := { db with items := db.items ++ [row]
                         next_item_id := db.next_item_id + 1 }
    (ensureStockRow db' row.id, row)

/-- `ensure_item(name, size, category)` (`operations.py`): exact-match
`SELECT`, raising `ValueError` (instructing the caller to run `add-item`
first) when absent.  Read-only, never creates. -/
def ensure_item (db : DB) (name size category : String) : Except Err ItemRow :=
  match db.items.find? (matchesTriple name size category) with
  | some i => .ok i
  | none => .error (.valueError
      ("未找到该款式，请先使用 add-item 创建：" ++ name ++ " " ++ size ++ " " ++ category))

/-- The `INSERT INTO transactions ... RETURNING ...` statement of
`log_transaction`: SQLite checks the two foreign keys
(`item_id REFERENCES items(id)`, `employee_id REFERENCES employees(id)`)
and raises `IntegrityError` on violation; on success the row is appended
with a fresh id and a `CURRENT_TIMESTAMP` stamp.  The `type` string is
NOT validated anywhere — any string is stored. -/
def insertTransaction (db : DB) (iid : Nat) (eid : Option Nat) (ttype : String)
    (q : Int) (note : String) : Except Err (DB × TransactionRow) :=
  if !(itemExists db iid) then
    .error (.integrityError "FOREIGN KEY constraint failed")
  else if (match eid with | some e => !(employeeExists db e) | none => false) then
    .error (.integrityError "FOREIGN KEY constraint failed")
  else
    let row : TransactionRow :=
      ⟨db.next_transaction_id, iid, eid, ttype, q, note, db.now⟩
    .ok ({ db with transactions := db.transactions ++ [row]
                   next_transaction_id := db.next_transaction_id + 1 }, row)

/-- `log_transaction(item_id, quantity, ttype, note, employee_id)`
(`operations.py`): inside one `with get_connection() as conn:` block it
(1) inserts the transaction row, (2) ensures a `stock_levels` row exists,
(3) adds `quantity` to it.  sqlite3's connection context manager commits
the whole unit on success and rolls back on an exception, so on failure
the original database is returned unchanged. -/
def log_transaction (db : DB) (iid : Nat) (q : Int) (ttype : String)
    (note : String) (eid : Option Nat) : DB × Except Err TransactionRow :=
  match insertTransaction db iid eid ttype q note with
  | .error e => (db, .error e)
  | .ok (db1, txn) =>
    let db2 := ensureStockRow db1 iid
    let db3 := bumpStock db2 iid q
    (db3, .ok txn)

/-! ### Sorting (the `ORDER BY` clauses)

SQLite's `ORDER BY` produces an output sorted under the requested
comparison; the order among ties is unspecified.  We model it with an
insertion sort over a boolean comparator, which is one admissible
behaviour. -/

/-- Insert `a` into `l` in front of the first element `b` with
`le a b`. -/
def insertLe (le : α → α → Bool) (a : α) : List α → List α
  | [] => [a]
  | b :: l => if le a b then a :: b :: l else b :: insertLe le a l

/-- Insertion sort by a boolean comparator. -/
def sortByLe (le : α → α → Bool) : List α → List α
  | [] => []
  | a :: l => insertLe le a (sortByLe le l)

/-! ### `get_status_rows` -/

/-- One row of the status report.  The SQL selects `s.quantity` from the
`LEFT JOIN` without a `COALESCE`, so an item with no `stock_levels` row
yields SQL `NULL`: the field is an `Option Int`.  `alert` is the string
produced by the `CASE WHEN s.quantity < i.min_stock THEN '⚠️ 低于安全库存'
ELSE '' END` expression; `NULL < x` is `NULL`, hence falsy, hence `''`. -/
structure StatusRow where
  id : Nat
  name : String
  size : String
  category : String
  quantity : Option Int
  min_stock : Int
  alert : String
  deriving Repr, DecidableEq

/-- The low-stock marker string from the SQL `CASE` expression. -/
def lowStockMarker : String := "⚠️ 低于安全库存"

/-- Build the status row for one item: `LEFT JOIN stock_levels` plus the
`CASE` alert. -/
def statusRowOf (db : DB) (i : ItemRow) : StatusRow :=
  let q : Option Int := (findStock db i.id).map (fun s => s.quantity)
  let alert := match q with
    | some qv => if qv < i.min_stock then lowStockMarker else ""
    | none => ""
  ⟨i.id, i.name, i.size, i.category, q, i.min_stock, alert⟩

/-- `ORDER BY i.name, i.size` as a boolean comparator on status rows. -/
def statusLe (a b : StatusRow) : Bool :=
  decide (a.name < b.name) || (a.name == b.name && decide (a.size ≤ b.size))

/-- `get_status_rows()` (`operations.py`): one row per `items` row,
left-joined with `stock_levels`, ordered by `(name, size)`.  Read-only. -/
def get_status_rows (db : DB) : List StatusRow :=
  sortByLe statusLe (db.items.map (statusRowOf db))

/-! ### `search_transactions` -/

/-- ASCII case folding: SQLite's `LIKE` is case-insensitive for the ASCII
letters A–Z only. -/
def asciiLower (c : Char) : Char :=
  if 'A' ≤ c ∧ c ≤ 'Z' then Char.ofNat (c.toNat + 32) else c

/-- Fuel-indexed SQLite `LIKE` matcher (structural recursion on the fuel,
so it evaluates in the kernel).  `%` matches any sequence, `_` any single
character, other characters match up to ASCII case.  With fuel at least
`p.length + s.length` the fuel never runs out. -/
def likeMatchF : List Char → Nat → List Char → Bool
  | [], _, s => s.isEmpty
  | _ :: _, 0, _ => false
  | c :: p, f + 1, s =>
    if c = '%' then
      likeMatchF p f s || (match s with
        | [] => false
        | _ :: s' => likeMatchF (c :: p) f s')
    else
      match s with
      | [] => false
      | d :: s' => (if c = '_' then true else asciiLower c == asciiLower d)
          && likeMatchF p f s'

/-- SQLite `LIKE` matching on character lists. -/
def likeMatch (p s : List Char) : Bool :=
  likeMatchF p (p.length + s.length) s

/-- `column LIKE '%' || f || '%'` — the pattern built by
`search_transactions` from a filter string. -/
def likeContains (f s : String) : Bool :=
  likeMatch ('%' :: (f.data ++ ['%'])) s.data

/-- The label map `TRANSACTION_LABELS.get(type, type)`. -/
def typeLabelOf (t : String) : String :=
  if t == "stock_in" then "入库/补货"
  else if t == "issue" then "发放"
  else if t == "return" then "归还"
  else if t == "adjust" then "盘点调整"
  else t

/-- One row of the history query: transaction joined with its item
(inner join) and left-joined employee name (`COALESCE(e.name, '')`),
plus the presentation `type_label`. -/
structure HistoryRow where
  id : Nat
  name : String
  size : String
  category : String
  employee : String
  type : String
  quantity : Int
  note : String
  created_at : Nat
  type_label : String
  deriving Repr, DecidableEq

/-- `ORDER BY t.created_at DESC` as a boolean comparator. -/
def histLe (a b : HistoryRow) : Bool :=
  decide (b.created_at ≤ a.created_at)

/-- The `LEFT JOIN employees e ON e.id = t.employee_id` result for one
transaction: `e.name`, or SQL `NULL` when no employee is attached or the
reference dangles. -/
def joinedEmpName (db : DB) (t : TransactionRow) : Option String :=
  t.employee_id.bind (fun eid =>
    (db.employees.find? (fun e => e.id == eid)).map (fun e => e.name))

/-- The joined, filtered (pre-sort) row for one transaction, or `none`
when the inner join on `items` drops it or a filter rejects it.
`if name:` in the Python treats an empty filter string as no filter;
an active employee filter rejects rows whose joined employee name is
`NULL` (SQL `NULL LIKE ?` is not true). -/
def historyRowOf (db : DB) (nameF employeeF : Option String) (t : TransactionRow) :
    Option HistoryRow :=
  match db.items.find? (fun i => i.id == t.item_id) with
  | none => none
  | some i =>
    let en? := joinedEmpName db t
    let nameOk := match nameF with
      | some f => f == "" || likeContains f i.name
      | none => true
    let empOk := match employeeF with
      | some f => f == "" || (match en? with
          | some en => likeContains f en
          | none => false)
      | none => true
    if nameOk && empOk then
      some ⟨t.id, i.name, i.size, i.category, en?.getD "", t.type, t.quantity,
            t.note, t.created_at, typeLabelOf t.type⟩
    else none

/-- `search_transactions(name, employee)` (`operations.py`): join, filter
with `LIKE '%…%'`, order by `created_at` descending, decorate with the
type label.  Read-only. -/
def search_transactions (db : DB) (nameF employeeF : Option String) :
    List HistoryRow :=
  sortByLe histLe (db.transactions.filterMap (historyRowOf db nameF employeeF))

/-- The joined (pre-filter) history row a transaction produces once its
item row `i` has been found. -/
def baseRow (db : DB) (t : TransactionRow) (i : ItemRow) : HistoryRow :=
  ⟨t.id, i.name, i.size, i.category, (joinedEmpName db t).getD "", t.type,
    t.quantity, t.note, t.created_at, typeLabelOf t.type⟩

/-! ### The CLI/web adapter flows for `issue` and `return`

`cli.py` records `quantity=-abs(args.quantity)` for `issue` and
`quantity=abs(args.quantity)` for `return`; `web.py` uses the same
`lambda q: -abs(q)` / `lambda q: abs(q)` sign derivation. -/

/-- Python `abs` on an integer. -/
def pyAbs (q : Int) : Int := (q.natAbs : Int)

/-- The `issue` command: resolve the item and the employee, then record a
movement of `-abs(quantity)` with type `issue`. -/
def cli_issue (db : DB) (name size category toName : String) (q : Int)
    (note : String) : DB × Except Err TransactionRow :=
  match ensure_item db name size category with
  | .error e => (db, .error e)
  | .ok item =>
    match get_employee db toName with
    | .error e => (db, .error e)
    | .ok emp => log_transaction db item.id (-(pyAbs q)) "issue" note (some emp.id)

/-- The `return` command: resolve the item and the employee, then record a
movement of `abs(quantity)` with type `return`. -/
def cli_return (db : DB) (name size category from_ : String) (q : Int)
    (note : String) : DB × Except Err TransactionRow :=
  match ensure_item db name size category with
  | .error e => (db, .error e)
  | .ok item =>
    match get_employee db from_ with
    | .error e => (db, .error e)
    | .ok emp => log_transaction db item.id (pyAbs q) "return" note (some emp.id)

/-! ### The ledger invariant and reachable database states -/

/-- Sum of the signed quantity deltas of the transactions in `l` that
reference item `iid` — the independent recomputation of the projection. -/
def ledgerSum (l : List TransactionRow) (iid : Nat) : Int :=
  ((l.filter (fun t => t.item_id == iid)).map (fun t => t.quantity)).sum

/-- `txnSum db iid` recomputes, from the ledger alone, what the cached
`stock_levels` quantity of item `iid` ought to be. -/
def txnSum (db : DB) (iid : Nat) : Int :=
  ledgerSum db.transactions iid

/-- The internal consistency of a database state: every cached
`stock_levels` quantity equals the ledger sum for its item, and every
recorded transaction's item already has a `stock_levels` row. -/
def StockInv (db : DB) : Prop :=
  (∀ s ∈ db.stock_levels, s.quantity = txnSum db s.item_id) ∧
  (∀ t ∈ db.transactions, ∃ s ∈ db.stock_levels, s.item_id = t.item_id)

/-- The states reachable from a fresh `init_db()` database by the core
operations.  The read-only queries (`get_status_rows`,
`search_transactions`, `get_employee`, `ensure_item`, `list_items`,
`list_employees`) are pure functions of the state and need no
constructor; `tick` lets the wall clock move arbitrarily between
operations. -/
inductive Reachable : DB → Prop
  | empty : Reachable DB.empty
  | tick (n : Nat) {db : DB} : Reachable db → Reachable { db with now := n }
  | addEmployee (name role : String) (badge : Option String) {db : DB} :
      Reachable db → Reachable (add_employee db name role badge).1
  | addItem (name size category : String) (m : Int) {db : DB} :
      Reachable db → Reachable (add_item db name size category m).1
  | logTransaction (iid : Nat) (q : Int) (ttype note : String)
      (eid : Option Nat) {db : DB} :
      Reachable db → Reachable (log_transaction db iid q ttype note eid).1

/-- Does the needle match at the very start of the haystack
(character-for-character, case-sensitive)? -/
def prefixMatches : List Char → List Char → Bool
  | [], _ => true
  | _ :: _, [] => false
  | a :: p, b :: s => a == b && prefixMatches p s

/-- Does the needle occur anywhere in the haystack? -/
def substringAt : List Char → List Char → Bool
  | n, [] => prefixMatches n []
  | n, c :: s => prefixMatches n (c :: s) || substringAt n s

/-- Exact (case-sensitive) substring containment — the relation the
claim's wording "contains the filter as a substring" denotes. -/
def containsSubstring (sub s : String) : Bool :=
  substringAt sub.data s.data

/-! ### Concrete states used to exercise the theorems -/

/-- A database holding one item (`Shirt / L / Summer`, threshold 20),
as created by `add_item` on a fresh database. -/
def dbA : DB := (add_item DB.empty "Shirt" "L" "Summer" 20).1

/-- `dbA` after stocking in 50 units. -/
def dbB : DB := (log_transaction dbA 1 50 "stock_in" "" none).1

/-- One item with threshold 0 and an on-hand quantity of 3. -/
def dbC : DB :=
  (log_transaction (add_item DB.empty "Shirt" "L" "Summer" 0).1
    1 3 "stock_in" "" none).1

/-- One employee registered twice without a badge. -/
def dbE : DB :=
  (add_employee (add_employee DB.empty "张三" "班长" none).1 "张三" "班长" none).1

/-- One item and one employee, ready for issue/return flows. -/
def dbF : DB := (add_employee dbA "Zhang" "guard" none).1

/-- An item row with no matching stock-level row (direct state, bypassing
`add_item`, which always creates one). -/
def dbNoStock : DB :=
  { DB.empty with items := [⟨1, "Shirt", "L", "Summer", 20⟩], next_item_id := 2 }

theorem ledgerSum_append_single (l : List TransactionRow) (r : TransactionRow)
    (iid : Nat) :
    ledgerSum (l ++ [r]) iid
      = ledgerSum l iid + (if r.item_id == iid then r.quantity else 0) := by
  unfold ledgerSum
  rw [List.filter_append]
  by_cases h : r.item_id == iid
  · simp [h]
  · simp [h]

theorem stockInv_of_eq {db1 db2 : DB}
    (hs : db2.stock_levels = db1.stock_levels)
    (ht : db2.transactions = db1.transactions) (h : StockInv db1) :
    StockInv db2 := by
  unfold StockInv txnSum at *
  rw [hs, ht]
  exact h

theorem add_employee_stock_levels (db : DB) (n r : String) (b : Option String) :
    (add_employee db n r b).1.stock_levels = db.stock_levels := by
  unfold add_employee
  cases b with
  | none => rfl
  | some bb =>
    cases hf : db.employees.find? (fun e => e.badge == some bb) <;> simp [hf]

theorem add_employee_transactions (db : DB) (n r : String) (b : Option String) :
    (add_employee db n r b).1.transactions = db.transactions := by
  unfold add_employee
  cases b with
  | none => rfl
  | some bb =>
    cases hf : db.employees.find? (fun e => e.badge == some bb) <;> simp [hf]

/-- If item `iid` has no `stock_levels` row, the second invariant clause
forces its ledger sum to be zero: its transaction filter is empty. -/
theorem txnSum_eq_zero_of_no_stock {db : DB} (h : StockInv db) (iid : Nat)
    (hno : db.stock_levels.all (fun s => !(s.item_id == iid))) :
    txnSum db iid = 0 := by
  unfold txnSum ledgerSum
  have hfil : db.transactions.filter (fun t => t.item_id == iid) = [] := by
    rw [List.filter_eq_nil_iff]
    intro t ht hbeq
    obtain ⟨s, hs, hsi⟩ := h.2 t ht
    have hb := List.all_eq_true.mp hno s hs
    simp only [Bool.not_eq_true', beq_eq_false_iff_ne] at hb
    simp only [beq_iff_eq] at hbeq
    exact hb (hsi.trans hbeq)
  rw [hfil]
  simp

theorem stockInv_ensureStockRow {db : DB} (iid : Nat) (h : StockInv db) :
    StockInv (ensureStockRow db iid) := by
  unfold ensureStockRow
  by_cases hc : db.stock_levels.any (fun s => s.item_id == iid)
  · simpa [hc] using h
  · simp only [hc, if_false, Bool.false_eq_true]
    constructor
    · intro s hs
      rcases List.mem_append.mp hs with hmem | hmem
      · exact h.1 s hmem
      · have hseq : s = ⟨iid, 0⟩ := by simpa using hmem
        subst hseq
        have hzero : txnSum db iid = 0 := by
          apply txnSum_eq_zero_of_no_stock h
          rw [List.all_eq_true]
          intro s hsmem
          simp only [Bool.not_eq_true']
          rw [← Bool.not_eq_true]
          intro hcontra
          exact hc (List.any_eq_true.mpr ⟨s, hsmem, hcontra⟩)
        simpa [txnSum, ledgerSum] using hzero.symm
    · intro t ht
      obtain ⟨s, hs, hsi⟩ := h.2 t ht
      exact ⟨s, List.mem_append_left _ hs, hsi⟩

theorem stockInv_add_employee (db : DB) (n r : String) (b : Option String)
    (h : StockInv db) : StockInv (add_employee db n r b).1 :=
  stockInv_of_eq (add_employee_stock_levels db n r b)
    (add_employee_transactions db n r b) h

theorem stockInv_add_item (db : DB) (n s c : String) (m : Int)
    (h : StockInv db) : StockInv (add_item db n s c m).1 := by
  unfold add_item
  cases hf : db.items.find? (matchesTriple n s c) with
  | some i =>
    simp only
    apply stockInv_ensureStockRow
    exact stockInv_of_eq rfl rfl h
  | none =>
    simp only
    apply stockInv_ensureStockRow
    exact stockInv_of_eq rfl rfl h

theorem ensureStockRow_transactions (d : DB) (i : Nat) :
    (ensureStockRow d i).transactions = d.transactions := by
  unfold ensureStockRow; split <;> rfl

theorem bumpStock_transactions (d : DB) (i : Nat) (q : Int) :
    (bumpStock d i q).transactions = d.transactions := rfl

theorem bumpStock_stock_levels (d : DB) (i : Nat) (q : Int) :
    (bumpStock d i q).stock_levels = d.stock_levels.map (fun s =>
      if s.item_id == i then { s with quantity := s.quantity + q } else s) := rfl

theorem bump_item_id (i : Nat) (q : Int) (s : StockLevelRow) :
    (if s.item_id == i then { s with quantity := s.quantity + q } else s).item_id
      = s.item_id := by
  split <;> rfl

theorem mem_ensureStockRow_self (d : DB) (i : Nat) :
    ∃ s ∈ (ensureStockRow d i).stock_levels, s.item_id = i := by
  unfold ensureStockRow
  split
  case isTrue hany =>
    obtain ⟨s, hs, hsi⟩ := List.any_eq_true.mp hany
    exact ⟨s, hs, by simpa using hsi⟩
  case isFalse =>
    exact ⟨⟨i, 0⟩, by simp, rfl⟩

theorem mem_ensureStockRow_of_mem {d : DB} {s : StockLevelRow}
    (hs : s ∈ d.stock_levels) (i : Nat) :
    s ∈ (ensureStockRow d i).stock_levels := by
  unfold ensureStockRow
  split
  · exact hs
  · exact List.mem_append_left _ hs

theorem mem_ensureStockRow_cases {d : DB} {i : Nat} {s : StockLevelRow}
    (hs : s ∈ (ensureStockRow d i).stock_levels) :
    s ∈ d.stock_levels ∨
      (s = ⟨i, 0⟩ ∧ ∀ s' ∈ d.stock_levels, ¬ s'.item_id = i) := by
  unfold ensureStockRow at hs
  split at hs
  · exact Or.inl hs
  case isFalse hany =>
    rcases List.mem_append.mp hs with h1 | h1
    · exact Or.inl h1
    · refine Or.inr ⟨by simpa using h1, ?_⟩
      intro s' hs' heq
      exact hany (List.any_eq_true.mpr ⟨s', hs', by simpa using heq⟩)

/-- The successful body of `log_transaction` — append the ledger row,
ensure the projection row, bump it — carries the consistency invariant
from the pre-state to the post-state. -/
theorem stockInv_apply_movement {db : DB} (h : StockInv db) (iid : Nat) (q : Int)
    (row : TransactionRow) (hrow_i : row.item_id = iid) (hrow_q : row.quantity = q)
    (nid : Nat) :
    StockInv (bumpStock (ensureStockRow
      { db with transactions := db.transactions ++ [row],
                next_transaction_id := nid } iid) iid q) := by
  set db1 : DB := { db with transactions := db.transactions ++ [row],
                            next_transaction_id := nid } with hdb1
  have htx1 : db1.transactions = db.transactions ++ [row] := rfl
  have hsumF : ∀ j : Nat,
      txnSum (bumpStock (ensureStockRow db1 iid) iid q) j
        = txnSum db j + (if iid == j then q else 0) := by
    intro j
    unfold txnSum
    rw [bumpStock_transactions, ensureStockRow_transactions, htx1,
        ledgerSum_append_single, hrow_i, hrow_q]
  constructor
  · intro s3 hs3
    rw [bumpStock_stock_levels] at hs3
    obtain ⟨s2, hs2, rfl⟩ := List.mem_map.mp hs3
    have hq2 : s2.quantity = txnSum db s2.item_id := by
      rcases mem_ensureStockRow_cases hs2 with hmem | ⟨heq, hnone⟩
      · exact h.1 s2 hmem
      · have hzero : txnSum db iid = 0 := by
          apply txnSum_eq_zero_of_no_stock h
          rw [List.all_eq_true]
          intro s' hs'
          simp only [Bool.not_eq_true']
          rw [← Bool.not_eq_true]
          intro hcontra
          exact hnone s' hs' (by simpa using hcontra)
        rw [heq]
        simpa using hzero.symm
    rw [bump_item_id, hsumF]
    by_cases hcase : s2.item_id == iid
    · have heq : s2.item_id = iid := by simpa using hcase
      rw [if_pos hcase, if_pos (by simpa using heq.symm), hq2]
    · rw [if_neg hcase, if_neg (by
        intro hcontra
        exact hcase (by simpa using (beq_iff_eq.mp hcontra).symm))]
      simpa using hq2
  · intro t ht
    rw [bumpStock_transactions, ensureStockRow_transactions, htx1] at ht
    rw [bumpStock_stock_levels]
    rcases List.mem_append.mp ht with h1 | h1
    · obtain ⟨s, hs, hsi⟩ := h.2 t h1
      have hs' : s ∈ db1.stock_levels := hs
      refine ⟨_, List.mem_map_of_mem _ (mem_ensureStockRow_of_mem hs' iid), ?_⟩
      rw [bump_item_id]
      exact hsi
    · have hteq : t = row := by simpa using h1
      obtain ⟨s, hs, hsi⟩ := mem_ensureStockRow_self db1 iid
      refine ⟨_, List.mem_map_of_mem _ hs, ?_⟩
      rw [bump_item_id, hsi, hteq, hrow_i]

theorem stockInv_log_transaction (db : DB) (iid : Nat) (q : Int)
    (ttype note : String) (eid : Option Nat) (h : StockInv db) :
    StockInv (log_transaction db iid q ttype note eid).1 := by
  unfold log_transaction insertTransaction
  by_cases h1 : (!(itemExists db iid)) = true
  · rw [if_pos h1]; exact h
  · rw [if_neg h1]
    by_cases h2 :
        (match eid with | some e => !(employeeExists db e) | none => false) = true
    · rw [if_pos h2]; exact h
    · rw [if_neg h2]
      exact stockInv_apply_movement h iid q
        ⟨db.next_transaction_id, iid, eid, ttype, q, note, db.now⟩ rfl rfl
        (db.next_transaction_id + 1)

theorem stockInv_empty : StockInv DB.empty := by
  constructor
  · intro s hs; cases hs
  · intro t ht; cases ht

theorem stockInv_tick (db : DB) (n : Nat) (h : StockInv db) :
    StockInv { db with now := n } :=
  stockInv_of_eq rfl rfl h

/-- Every reachable database state satisfies the full internal
consistency invariant. -/
theorem reachable_stockInv {db : DB} (h : Reachable db) : StockInv db := by
  induction h with
  | empty => exact stockInv_empty
  | tick n _ ih => exact stockInv_tick _ n ih
  | addEmployee name role badge _ ih => exact stockInv_add_employee _ name role badge ih
  | addItem name size category m _ ih => exact stockInv_add_item _ name size category m ih
  | logTransaction iid q ttype note eid _ ih =>
    exact stockInv_log_transaction _ iid q ttype note eid ih

/-! ### Facts about the `ORDER BY` model -/

theorem mem_insertLe (le : α → α → Bool) (a x : α) (l : List α) :
    x ∈ insertLe le a l ↔ x = a ∨ x ∈ l := by
  induction l with
  | nil => simp [insertLe]
  | cons b l ih =>
    unfold insertLe
    split
    · simp only [List.mem_cons]
    · simp only [List.mem_cons, ih]
      tauto

theorem insertLe_perm (le : α → α → Bool) (a : α) (l : List α) :
    (insertLe le a l).Perm (a :: l) := by
  induction l with
  | nil => exact List.Perm.refl _
  | cons b l ih =>
    unfold insertLe
    split
    · exact List.Perm.refl _
    · exact (ih.cons b).trans (List.Perm.swap a b l)

theorem sortByLe_perm (le : α → α → Bool) (l : List α) :
    (sortByLe le l).Perm l := by
  induction l with
  | nil => exact List.Perm.refl _
  | cons a l ih =>
    exact (insertLe_perm le a (sortByLe le l)).trans (ih.cons a)

theorem mem_sortByLe (le : α → α → Bool) (x : α) (l : List α) :
    x ∈ sortByLe le l ↔ x ∈ l :=
  (sortByLe_perm le l).mem_iff

theorem pairwise_insertLe (le : α → α → Bool)
    (htot : ∀ a b, le a b = true ∨ le b a = true)
    (htrans : ∀ a b c, le a b = true → le b c = true → le a c = true)
    (a : α) (l : List α) (hl : l.Pairwise (fun x y => le x y = true)) :
    (insertLe le a l).Pairwise (fun x y => le x y = true) := by
  induction l with
  | nil => simp [insertLe]
  | cons b l ih =>
    rcases List.pairwise_cons.mp hl with ⟨hb, hl'⟩
    unfold insertLe
    split
    case isTrue hab =>
      refine List.pairwise_cons.mpr ⟨?_, hl⟩
      intro x hx
      rcases List.mem_cons.mp hx with rfl | hx'
      · exact hab
      · exact htrans a b x hab (hb x hx')
    case isFalse hab =>
      refine List.pairwise_cons.mpr ⟨?_, ih hl'⟩
      intro x hx
      rcases (mem_insertLe le a x l).mp hx with rfl | hx'
      · rcases htot x b with h1 | h1
        · exact absurd h1 hab
        · exact h1
      · exact hb x hx'

theorem pairwise_sortByLe (le : α → α → Bool)
    (htot : ∀ a b, le a b = true ∨ le b a = true)
    (htrans : ∀ a b c, le a b = true → le b c = true → le a c = true)
    (l : List α) :
    (sortByLe le l).Pairwise (fun x y => le x y = true) := by
  induction l with
  | nil => simp [sortByLe]
  | cons a l ih => exact pairwise_insertLe le htot htrans a _ ih

theorem statusLe_total (a b : StatusRow) :
    statusLe a b = true ∨ statusLe b a = true := by
  unfold statusLe
  rcases lt_trichotomy a.name b.name with h | h | h
  · left; simp [h]
  · rcases le_total a.size b.size with hs | hs
    · left; simp [h, hs]
    · right; simp [h, hs]
  · right; simp [h]

theorem statusLe_trans (a b c : StatusRow)
    (hab : statusLe a b = true) (hbc : statusLe b c = true) :
    statusLe a c = true := by
  unfold statusLe at *
  simp only [Bool.or_eq_true, Bool.and_eq_true, decide_eq_true_eq,
    beq_iff_eq] at *
  rcases hab with h1 | ⟨h1, h1'⟩ <;> rcases hbc with h2 | ⟨h2, h2'⟩
  · exact Or.inl (h1.trans h2)
  · exact Or.inl (lt_of_lt_of_le h1 (le_of_eq h2))
  · exact Or.inl (lt_of_le_of_lt (le_of_eq h1) h2)
  · exact Or.inr ⟨h1.trans h2, le_trans h1' h2'⟩

theorem histLe_total (a b : HistoryRow) :
    histLe a b = true ∨ histLe b a = true := by
  unfold histLe
  rcases Nat.le_total a.created_at b.created_at with h | h
  · right; simpa using h
  · left; simpa using h

theorem histLe_trans (a b c : HistoryRow)
    (hab : histLe a b = true) (hbc : histLe b c = true) :
    histLe a c = true := by
  unfold histLe at *
  simp only [decide_eq_true_eq] at *
  exact le_trans hbc hab

/-! ### Characterizations of `log_transaction` and `stockQty` -/

theorem ensureStockRow_items (d : DB) (i : Nat) :
    (ensureStockRow d i).items = d.items := by
  unfold ensureStockRow; split <;> rfl

theorem insertTransaction_cases (db : DB) (iid : Nat) (eid : Option Nat)
    (ttype : String) (q : Int) (note : String) :
    insertTransaction db iid eid ttype q note
      = .ok ({ db with
               transactions := db.transactions
                 ++ [⟨db.next_transaction_id, iid, eid, ttype, q, note, db.now⟩],
               next_transaction_id := db.next_transaction_id + 1 },
             ⟨db.next_transaction_id, iid, eid, ttype, q, note, db.now⟩) ∨
    insertTransaction db iid eid ttype q note
      = .error (.integrityError "FOREIGN KEY constraint failed") := by
  unfold insertTransaction
  split
  · right; rfl
  · split
    · right; rfl
    · left; rfl

theorem find?_bump (l : List StockLevelRow) (iid : Nat) (q : Int) :
    (l.map (fun s =>
        if s.item_id == iid then { s with quantity := s.quantity + q } else s)).find?
        (fun s => s.item_id == iid)
      = (l.find? (fun s => s.item_id == iid)).map
          (fun s =>
            if s.item_id == iid then { s with quantity := s.quantity + q } else s) := by
  rw [List.find?_map]
  have hfun : ((fun s : StockLevelRow => s.item_id == iid) ∘ (fun s =>
      if s.item_id == iid then { s with quantity := s.quantity + q } else s))
      = (fun s : StockLevelRow => s.item_id == iid) := by
    funext s
    simp only [Function.comp_apply]
    by_cases h : s.item_id == iid <;> simp [h]
  rw [hfun]

theorem stockQty_bump_ensure (d : DB) (iid : Nat) (q : Int) :
    stockQty (bumpStock (ensureStockRow d iid) iid q) iid = stockQty d iid + q := by
  by_cases hany : d.stock_levels.any (fun s => s.item_id == iid) = true
  · have he : (ensureStockRow d iid).stock_levels = d.stock_levels := by
      unfold ensureStockRow; rw [if_pos hany]
    unfold stockQty findStock
    rw [bumpStock_stock_levels, he, find?_bump]
    cases hf : d.stock_levels.find? (fun s => s.item_id == iid) with
    | none =>
      obtain ⟨s, hs, hp⟩ := List.any_eq_true.mp hany
      rw [List.find?_eq_none] at hf
      exact absurd hp (hf s hs)
    | some s =>
      have hp : s.item_id = iid := by simpa using List.find?_some hf
      simp [hp]
  · have he : (ensureStockRow d iid).stock_levels
        = d.stock_levels ++ [⟨iid, 0⟩] := by
      unfold ensureStockRow; rw [if_neg hany]
    have hf : d.stock_levels.find? (fun s => s.item_id == iid) = none := by
      rw [List.find?_eq_none]
      intro s hs hp
      exact hany (List.any_eq_true.mpr ⟨s, hs, hp⟩)
    unfold stockQty findStock
    rw [bumpStock_stock_levels, he, List.map_append, List.find?_append,
        find?_bump, hf]
    simp

/-- When both foreign keys resolve, `log_transaction` takes its success
path and we can name the exact result. -/
theorem log_transaction_ok (db : DB) (iid : Nat) (q : Int) (ttype note : String)
    (eid : Option Nat) (hitem : itemExists db iid = true)
    (hemp : (match eid with | some e => employeeExists db e = true | none => True)) :
    log_transaction db iid q ttype note eid
      = (bumpStock (ensureStockRow
          { db with
            transactions := db.transactions
              ++ [⟨db.next_transaction_id, iid, eid, ttype, q, note, db.now⟩],
            next_transaction_id := db.next_transaction_id + 1 } iid) iid q,
         .ok ⟨db.next_transaction_id, iid, eid, ttype, q, note, db.now⟩) := by
  cases eid with
  | none => simp [log_transaction, insertTransaction, hitem]
  | some e =>
    have he : employeeExists db e = true := hemp
    simp [log_transaction, insertTransaction, hitem, he]

/-- Whatever happens, a transaction reported as inserted is the uniquely
determined appended row. -/
theorem log_transaction_result (db : DB) (iid : Nat) (q : Int)
    (ttype note : String) (eid : Option Nat) (txn : TransactionRow)
    (h : (log_transaction db iid q ttype note eid).2 = .ok txn) :
    txn = ⟨db.next_transaction_id, iid, eid, ttype, q, note, db.now⟩ ∧
    (log_transaction db iid q ttype note eid).1.transactions
      = db.transactions ++ [txn] := by
  rcases insertTransaction_cases db iid eid ttype q note with hok | herr
  · simp only [log_transaction, hok] at h ⊢
    simp only [Except.ok.injEq] at h
    refine ⟨h.symm, ?_⟩
    rw [bumpStock_transactions, ensureStockRow_transactions, ← h]
  · simp only [log_transaction, herr] at h
    cases h

theorem add_item_found (db : DB) (n s c : String) (m : Int) (i : ItemRow)
    (hf : db.items.find? (matchesTriple n s c) = some i) :
    add_item db n s c m
      = (ensureStockRow { db with items := db.items.map (fun x =>
          if matchesTriple n s c x then { x with min_stock := m } else x) } i.id,
         { i with min_stock := m }) := by
  unfold add_item
  rw [hf]

theorem add_item_fresh (db : DB) (n s c : String) (m : Int)
    (hf : db.items.find? (matchesTriple n s c) = none) :
    add_item db n s c m
      = (ensureStockRow
          { db with items := db.items ++ [⟨db.next_item_id, n, s, c, m⟩],
                    next_item_id := db.next_item_id + 1 } db.next_item_id,
         ⟨db.next_item_id, n, s, c, m⟩) := by
  unfold add_item
  rw [hf]

/-! ### Claim theorems -/

/-- C1: in every reachable database state, the cached `stock_levels`
quantity of every item equals the sum of the quantity deltas of all
recorded transactions referencing that item.  The constructors of
`Reachable` are exactly the mutating core operations (`add_employee`,
`add_item`, `log_transaction`) plus clock movement, so each of them
preserves the equality; the read-only queries are pure functions of the
state and cannot disturb it. -/
theorem stock_level_matches_ledger_sum (db : DB) (h : Reachable db) :
    ∀ s ∈ db.stock_levels, s.quantity = txnSum db s.item_id :=
  (reachable_stockInv h).1

/-- Witness for C1: after `add_item` and a stock-in of 50 the cached
row `⟨1, 50⟩` indeed carries the ledger sum for item 1. -/
theorem stock_level_matches_ledger_sum_witness :
    (⟨1, 50⟩ : StockLevelRow).quantity
      = txnSum dbB (⟨1, 50⟩ : StockLevelRow).item_id :=
  stock_level_matches_ledger_sum dbB
    (Reachable.logTransaction 1 50 "stock_in" "" none
      (Reachable.addItem "Shirt" "L" "Summer" 20 Reachable.empty))
    ⟨1, 50⟩ (by decide)

/-- C2: `log_transaction` is atomic.  For every call, either it succeeds
and both effects are visible — the transaction row is appended to the
ledger and the projected quantity of the item grows by exactly the
delta — or it fails and the returned state is the original database,
bit for bit (the sqlite3 connection context manager rolls back). -/
theorem log_transaction_atomic (db : DB) (iid : Nat) (q : Int)
    (ttype note : String) (eid : Option Nat) :
    (∃ txn : TransactionRow,
        (log_transaction db iid q ttype note eid).2 = .ok txn ∧
        (log_transaction db iid q ttype note eid).1.transactions
          = db.transactions ++ [txn] ∧
        stockQty (log_transaction db iid q ttype note eid).1 iid
          = stockQty db iid + q) ∨
    (∃ e : Err,
        (log_transaction db iid q ttype note eid).2 = .error e ∧
        (log_transaction db iid q ttype note eid).1 = db) := by
  rcases insertTransaction_cases db iid eid ttype q note with hok | herr
  · left
    refine ⟨⟨db.next_transaction_id, iid, eid, ttype, q, note, db.now⟩, ?_, ?_, ?_⟩
    · simp only [log_transaction, hok]
    · simp only [log_transaction, hok]
      rw [bumpStock_transactions, ensureStockRow_transactions]
    · simp only [log_transaction, hok]
      exact stockQty_bump_ensure _ iid q
  · right
    exact ⟨.integrityError "FOREIGN KEY constraint failed",
      by simp only [log_transaction, herr], by simp only [log_transaction, herr]⟩

/-- C7: the Ledger Engine never rejects a movement for driving stock
negative.  Whenever the referenced item (and employee, if any) exists,
`log_transaction` succeeds for EVERY delta `q` — there is no guard
comparing `q` against the on-hand quantity — and the resulting projected
quantity is the prior quantity plus the delta, negative or not. -/
theorem issue_allows_negative_stock (db : DB) (iid : Nat) (q : Int)
    (note : String) (eid : Option Nat)
    (hitem : itemExists db iid = true)
    (hemp : (match eid with | some e => employeeExists db e = true | none => True)) :
    ∃ txn : TransactionRow,
      (log_transaction db iid q "issue" note eid).2 = .ok txn ∧
      txn.quantity = q ∧
      stockQty (log_transaction db iid q "issue" note eid).1 iid
        = stockQty db iid + q := by
  rw [log_transaction_ok db iid q "issue" note eid hitem hemp]
  exact ⟨_, rfl, rfl, stockQty_bump_ensure _ iid q⟩

/-- Witness for C7: issuing 10 units of an item with on-hand quantity 3
succeeds and leaves quantity -7 — the spec's own example. -/
theorem issue_allows_negative_stock_witness :
    stockQty (log_transaction dbC 1 (-10) "issue" "" none).1 1 = -7 := by
  obtain ⟨txn, h1, h2, h3⟩ :=
    issue_allows_negative_stock dbC 1 (-10) "" none (by decide) trivial
  rw [h3]
  decide

/-- C5 counterexample: the claim says an unknown type string makes
`log_transaction` fail with a validation error and write nothing.  In the
code there is no type validation at all: on `dbA` (one item, empty
ledger) recording type `"bogus"` succeeds, appends the transaction row
with the bogus type stored verbatim, and moves the projection. -/
theorem log_transaction_unknown_type_accepted :
    (log_transaction dbA 1 5 "bogus" "" none).2
      = .ok ⟨1, 1, none, "bogus", 5, "", 0⟩ ∧
    (log_transaction dbA 1 5 "bogus" "" none).1.transactions
      = [⟨1, 1, none, "bogus", 5, "", 0⟩] ∧
    stockQty (log_transaction dbA 1 5 "bogus" "" none).1 1 = 5 :=
  ⟨rfl, rfl, rfl⟩

/-- C5 (amended): `log_transaction` performs no validation of the type
string.  For every type string — one of the four known kinds or not —
the call succeeds whenever the foreign-key references resolve, storing
the type verbatim in the appended transaction row. -/
theorem log_transaction_no_type_validation (db : DB) (iid : Nat) (q : Int)
    (ttype note : String) (eid : Option Nat)
    (hitem : itemExists db iid = true)
    (hemp : (match eid with | some e => employeeExists db e = true | none => True)) :
    ∃ txn : TransactionRow,
      (log_transaction db iid q ttype note eid).2 = .ok txn ∧
      txn.type = ttype ∧
      (log_transaction db iid q ttype note eid).1.transactions
        = db.transactions ++ [txn] := by
  rw [log_transaction_ok db iid q ttype note eid hitem hemp]
  refine ⟨_, rfl, rfl, ?_⟩
  rw [bumpStock_transactions, ensureStockRow_transactions]

/-- Witness for the amended C5: recording type `"mystery"` on `dbA`
appends exactly one row carrying that type. -/
theorem log_transaction_no_type_validation_witness :
    (log_transaction dbA 1 5 "mystery" "" none).1.transactions
      = dbA.transactions ++ [⟨1, 1, none, "mystery", 5, "", 0⟩] := by
  obtain ⟨txn, h1, h2, h3⟩ :=
    log_transaction_no_type_validation dbA 1 5 "mystery" "" none (by decide) trivial
  have he := (log_transaction_result dbA 1 5 "mystery" "" none txn h1).1
  rw [h3, he]
  decide

/-- C6 counterexample: the claim says a negative `min_stock` makes
`add_item` fail with a validation error before any mutation.  The code
has no such check: on an empty database, `min_stock = -5` is accepted,
the item row is created storing -5, and its stock row is initialised. -/
theorem add_item_negative_min_stock_accepted :
    (add_item DB.empty "X" "" "" (-5)).2 = ⟨1, "X", "", "", -5⟩ ∧
    (add_item DB.empty "X" "" "" (-5)).1.items = [⟨1, "X", "", "", -5⟩] ∧
    (add_item DB.empty "X" "" "" (-5)).1.stock_levels = [⟨1, 0⟩] := by
  decide

/-- C6 (amended): `add_item` performs no validation of `min_stock`.  For
every value, negative included, the call succeeds: the returned item row
stores `min_stock` verbatim and is present in the items table. -/
theorem add_item_no_min_stock_validation (db : DB) (n s c : String) (m : Int) :
    (add_item db n s c m).2.min_stock = m ∧
    (add_item db n s c m).2 ∈ (add_item db n s c m).1.items := by
  cases hf : db.items.find? (matchesTriple n s c) with
  | some i =>
    rw [add_item_found db n s c m i hf]
    refine ⟨rfl, ?_⟩
    rw [ensureStockRow_items]
    have hi : i ∈ db.items := List.mem_of_find?_eq_some hf
    have hp : matchesTriple n s c i = true := List.find?_some hf
    have hfx : ({ i with min_stock := m } : ItemRow)
        = (fun x => if matchesTriple n s c x then { x with min_stock := m } else x) i := by
      simp only [hp, if_true]
    rw [hfx]
    exact List.mem_map_of_mem _ hi
  | none =>
    rw [add_item_fresh db n s c m hf]
    refine ⟨rfl, ?_⟩
    rw [ensureStockRow_items]
    exact List.mem_append_right _ (List.mem_singleton_self _)

theorem stockQty_congr {d1 d2 : DB} (hs : d1.stock_levels = d2.stock_levels)
    (iid : Nat) : stockQty d1 iid = stockQty d2 iid := by
  unfold stockQty findStock
  rw [hs]

theorem ensureStockRow_stock_of_any {d : DB} {i : Nat}
    (hany : d.stock_levels.any (fun s => s.item_id == i) = true) :
    (ensureStockRow d i).stock_levels = d.stock_levels := by
  unfold ensureStockRow
  rw [if_pos hany]

theorem matchesTriple_update (n s c : String) (m : Int) (x : ItemRow) :
    matchesTriple n s c
      (if matchesTriple n s c x then { x with min_stock := m } else x)
      = matchesTriple n s c x := by
  by_cases h : matchesTriple n s c x = true
  · rw [if_pos h]
    rfl
  · rw [if_neg h]

/-- C4: `add_item` is idempotent on the identity key.  Starting from a
state where the (name, size, category) triple is absent, two consecutive
calls yield a single matching item row; the second call returns the same
identifier, stores the new minimum-stock threshold, and leaves the
item's stock level untouched. -/
theorem add_item_idempotent (db : DB) (n s c : String) (m1 m2 : Int)
    (hfresh : db.items.find? (matchesTriple n s c) = none) :
    (add_item (add_item db n s c m1).1 n s c m2).2.id
      = (add_item db n s c m1).2.id ∧
    ((add_item (add_item db n s c m1).1 n s c m2).1.items.filter
        (matchesTriple n s c)).length = 1 ∧
    (add_item (add_item db n s c m1).1 n s c m2).2.min_stock = m2 ∧
    stockQty (add_item (add_item db n s c m1).1 n s c m2).1
        (add_item db n s c m1).2.id
      = stockQty (add_item db n s c m1).1 (add_item db n s c m1).2.id := by
  have h1 := add_item_fresh db n s c m1 hfresh
  have hfst : (add_item db n s c m1).1
      = ensureStockRow
          { db with items := db.items ++ [⟨db.next_item_id, n, s, c, m1⟩],
                    next_item_id := db.next_item_id + 1 } db.next_item_id := by
    rw [h1]
  have hitems1 : (add_item db n s c m1).1.items
      = db.items ++ [⟨db.next_item_id, n, s, c, m1⟩] := by
    rw [hfst, ensureStockRow_items]
  have hfind2 : (add_item db n s c m1).1.items.find? (matchesTriple n s c)
      = some ⟨db.next_item_id, n, s, c, m1⟩ := by
    rw [hitems1, List.find?_append, hfresh]
    simp [matchesTriple]
  have h2 := add_item_found (add_item db n s c m1).1 n s c m2
    ⟨db.next_item_id, n, s, c, m1⟩ hfind2
  have hfst2 : (add_item (add_item db n s c m1).1 n s c m2).1
      = ensureStockRow
          { (add_item db n s c m1).1 with
            items := (add_item db n s c m1).1.items.map (fun x =>
              if matchesTriple n s c x then { x with min_stock := m2 } else x) }
          db.next_item_id := by
    rw [h2]
  have hsnd2 : (add_item (add_item db n s c m1).1 n s c m2).2
      = ⟨db.next_item_id, n, s, c, m2⟩ := by
    rw [h2]
  have hex : ∃ s0 ∈ (add_item db n s c m1).1.stock_levels,
      s0.item_id = db.next_item_id := by
    rw [hfst]
    exact mem_ensureStockRow_self _ db.next_item_id
  obtain ⟨s0, hs0, hs0i⟩ := hex
  have hany : ((add_item db n s c m1).1.stock_levels.any
      (fun x => x.item_id == db.next_item_id)) = true :=
    List.any_eq_true.mpr ⟨s0, hs0, by simp [hs0i]⟩
  refine ⟨?_, ?_, ?_, ?_⟩
  · rw [hsnd2, h1]
  · rw [hfst2, ensureStockRow_items]
    show (((add_item db n s c m1).1.items.map (fun x =>
        if matchesTriple n s c x then { x with min_stock := m2 } else x)).filter
        (matchesTriple n s c)).length = 1
    rw [hitems1, List.filter_map]
    rw [List.length_map]
    have hpe : ((matchesTriple n s c) ∘ (fun x =>
        if matchesTriple n s c x then { x with min_stock := m2 } else x))
        = matchesTriple n s c := by
      funext x
      simp only [Function.comp_apply]
      exact matchesTriple_update n s c m2 x
    rw [hpe, List.filter_append]
    have hnil : db.items.filter (matchesTriple n s c) = [] := by
      rw [List.filter_eq_nil_iff]
      intro x hx hp
      rw [List.find?_eq_none] at hfresh
      exact hfresh x hx hp
    rw [hnil]
    simp [matchesTriple]
  · rw [hsnd2]
  · have hstock2 : (add_item (add_item db n s c m1).1 n s c m2).1.stock_levels
        = (add_item db n s c m1).1.stock_levels := by
      rw [hfst2]
      exact ensureStockRow_stock_of_any hany
    exact stockQty_congr hstock2 _

/-- Witness for C4: upserting `Shirt/L/Summer` twice on an empty
database keeps the identifier stable. -/
theorem add_item_idempotent_witness :
    (add_item (add_item DB.empty "Shirt" "L" "Summer" 20).1
        "Shirt" "L" "Summer" 35).2.id
      = (add_item DB.empty "Shirt" "L" "Summer" 20).2.id :=
  (add_item_idempotent DB.empty "Shirt" "L" "Summer" 20 35 rfl).1

/-- C10: `add_employee` with no badge always inserts a brand-new row —
the `ON CONFLICT(badge)` clause never fires for a NULL badge — so two
badge-less registrations of the same name yield two rows with distinct
identifiers, and `get_employee` by that name afterwards returns just the
first of them. -/
theorem add_employee_badgeless_duplicates (db : DB) (n r : String)
    (hnone : db.employees.find? (fun e => e.name == n) = none) :
    (add_employee db n r none).2.id
      ≠ (add_employee (add_employee db n r none).1 n r none).2.id ∧
    (add_employee db n r none).2
      ∈ (add_employee (add_employee db n r none).1 n r none).1.employees ∧
    (add_employee (add_employee db n r none).1 n r none).2
      ∈ (add_employee (add_employee db n r none).1 n r none).1.employees ∧
    get_employee (add_employee (add_employee db n r none).1 n r none).1 n
      = .ok (add_employee db n r none).2 := by
  refine ⟨?_, ?_, ?_, ?_⟩
  · show db.next_employee_id ≠ db.next_employee_id + 1
    omega
  · show (⟨db.next_employee_id, n, r, none⟩ : EmployeeRow)
        ∈ (db.employees ++ [⟨db.next_employee_id, n, r, none⟩])
          ++ [⟨db.next_employee_id + 1, n, r, none⟩]
    exact List.mem_append_left _
      (List.mem_append_right _ (List.mem_singleton_self _))
  · show (⟨db.next_employee_id + 1, n, r, none⟩ : EmployeeRow)
        ∈ (db.employees ++ [⟨db.next_employee_id, n, r, none⟩])
          ++ [⟨db.next_employee_id + 1, n, r, none⟩]
    exact List.mem_append_right _ (List.mem_singleton_self _)
  · have hfind : ((db.employees ++ [(⟨db.next_employee_id, n, r, none⟩ : EmployeeRow)])
        ++ [(⟨db.next_employee_id + 1, n, r, none⟩ : EmployeeRow)]).find?
        (fun e => e.name == n) = some ⟨db.next_employee_id, n, r, none⟩ := by
      rw [List.find?_append, List.find?_append, hnone]
      simp
    show get_employee (add_employee (add_employee db n r none).1 n r none).1 n
      = .ok (⟨db.next_employee_id, n, r, none⟩ : EmployeeRow)
    unfold get_employee
    rw [show (add_employee (add_employee db n r none).1 n r none).1.employees
        = (db.employees ++ [(⟨db.next_employee_id, n, r, none⟩ : EmployeeRow)])
          ++ [(⟨db.next_employee_id + 1, n, r, none⟩ : EmployeeRow)] from rfl]
    rw [hfind]

/-- Witness for C10: on a fresh database, after the double registration
`get_employee` returns the first of the two duplicate rows. -/
theorem add_employee_badgeless_duplicates_witness :
    get_employee dbE "张三" = .ok ⟨1, "张三", "班长", none⟩ :=
  (add_employee_badgeless_duplicates DB.empty "张三" "班长" rfl).2.2.2

/-- C9: sign enforcement at the adapter boundary.  For every
caller-supplied quantity `q` — positive, zero, or negative — a completed
`issue` flow stores delta `-abs(q)` and a completed `return` flow stores
`+abs(q)` in the transaction row it appends. -/
theorem adapter_sign_enforcement (db : DB) (n s c en : String) (q : Int)
    (note : String) :
    (∀ txn : TransactionRow,
        (cli_issue db n s c en q note).2 = .ok txn →
        txn.quantity = -(pyAbs q) ∧ txn.type = "issue" ∧
        txn ∈ (cli_issue db n s c en q note).1.transactions) ∧
    (∀ txn : TransactionRow,
        (cli_return db n s c en q note).2 = .ok txn →
        txn.quantity = pyAbs q ∧ txn.type = "return" ∧
        txn ∈ (cli_return db n s c en q note).1.transactions) := by
  constructor
  · intro txn htxn
    cases hi : ensure_item db n s c with
    | error e =>
      simp only [cli_issue, hi] at htxn
      cases htxn
    | ok item =>
      cases he : get_employee db en with
      | error e =>
        simp only [cli_issue, hi, he] at htxn
        cases htxn
      | ok emp =>
        simp only [cli_issue, hi, he] at htxn ⊢
        obtain ⟨heq, htr⟩ := log_transaction_result db item.id (-(pyAbs q))
          "issue" note (some emp.id) txn htxn
        refine ⟨by rw [heq], by rw [heq], ?_⟩
        rw [htr]
        exact List.mem_append_right _ (List.mem_singleton_self _)
  · intro txn htxn
    cases hi : ensure_item db n s c with
    | error e =>
      simp only [cli_return, hi] at htxn
      cases htxn
    | ok item =>
      cases he : get_employee db en with
      | error e =>
        simp only [cli_return, hi, he] at htxn
        cases htxn
      | ok emp =>
        simp only [cli_return, hi, he] at htxn ⊢
        obtain ⟨heq, htr⟩ := log_transaction_result db item.id (pyAbs q)
          "return" note (some emp.id) txn htxn
        refine ⟨by rw [heq], by rw [heq], ?_⟩
        rw [htr]
        exact List.mem_append_right _ (List.mem_singleton_self _)

/-- Witness for C9: issuing with caller-supplied quantity -5 stores
delta -5 (= `-abs(-5)`) in the appended row. -/
theorem adapter_sign_enforcement_witness :
    (⟨1, 1, some 1, "issue", -5, "", 0⟩ : TransactionRow).quantity
        = -(pyAbs (-5)) ∧
    (⟨1, 1, some 1, "issue", -5, "", 0⟩ : TransactionRow).type = "issue" ∧
    (⟨1, 1, some 1, "issue", -5, "", 0⟩ : TransactionRow)
      ∈ (cli_issue dbF "Shirt" "L" "Summer" "Zhang" (-5) "").1.transactions :=
  (adapter_sign_enforcement dbF "Shirt" "L" "Summer" "Zhang" (-5) "").1
    ⟨1, 1, some 1, "issue", -5, "", 0⟩ rfl

/-- C3 counterexample: the claim says an item with no `stock_levels` row
is reported with quantity 0.  The SQL selects `s.quantity` from the left
join with no `COALESCE`, so the reported quantity is SQL `NULL`
(modelled `none`), not 0. -/
theorem get_status_rows_null_quantity :
    (get_status_rows dbNoStock).map (fun row => row.quantity) = [none] ∧
    dbNoStock.stock_levels = [] := by
  decide

theorem statusRowOf_facts (db : DB) (i : ItemRow) :
    (statusRowOf db i).id = i.id ∧
    (statusRowOf db i).min_stock = i.min_stock ∧
    (statusRowOf db i).quantity
      = (findStock db i.id).map (fun s0 => s0.quantity) ∧
    ((statusRowOf db i).alert = lowStockMarker ↔
      ∃ qv : Int, (statusRowOf db i).quantity = some qv ∧ qv < i.min_stock) := by
  refine ⟨rfl, rfl, rfl, ?_⟩
  cases hf : findStock db i.id with
  | none =>
    have ha : (statusRowOf db i).alert = "" := by simp [statusRowOf, hf]
    have hq : (statusRowOf db i).quantity = none := by simp [statusRowOf, hf]
    rw [ha, hq]
    constructor
    · intro h
      exact absurd h (by decide)
    · rintro ⟨qv, hq2, _⟩
      cases hq2
  | some s0 =>
    have hq : (statusRowOf db i).quantity = some s0.quantity := by
      simp [statusRowOf, hf]
    by_cases hlt : s0.quantity < i.min_stock
    · have ha : (statusRowOf db i).alert = lowStockMarker := by
        simp [statusRowOf, hf, hlt]
      rw [ha, hq]
      exact Iff.intro (fun _ => ⟨s0.quantity, rfl, hlt⟩) (fun _ => rfl)
    · have ha : (statusRowOf db i).alert = "" := by
        simp [statusRowOf, hf, hlt]
      rw [ha, hq]
      constructor
      · intro h
        exact absurd h (by decide)
      · rintro ⟨qv, hq2, hlt2⟩
        injection hq2 with hq2
        rw [← hq2] at hlt2
        exact absurd hlt2 hlt

/-- C3 (amended): `get_status_rows` returns exactly one row per item,
ordered by (name, size); a row's quantity is the raw left-join value —
`none` (SQL NULL) when the item has no `stock_levels` row, NOT 0 — and
the low-stock marker is set iff the quantity is present and strictly
below the threshold (a NULL quantity never sets the marker). -/
theorem get_status_rows_spec (db : DB) :
    (get_status_rows db).Pairwise (fun a b => statusLe a b = true) ∧
    (get_status_rows db).length = db.items.length ∧
    (∀ i ∈ db.items, statusRowOf db i ∈ get_status_rows db) ∧
    (∀ row ∈ get_status_rows db,
        ∃ i ∈ db.items,
          row = statusRowOf db i ∧
          row.id = i.id ∧
          row.quantity = (findStock db i.id).map (fun s0 => s0.quantity) ∧
          (row.alert = lowStockMarker ↔
            ∃ qv : Int, row.quantity = some qv ∧ qv < row.min_stock)) := by
  refine ⟨pairwise_sortByLe statusLe statusLe_total statusLe_trans _, ?_, ?_, ?_⟩
  · unfold get_status_rows
    rw [(sortByLe_perm statusLe _).length_eq, List.length_map]
  · intro i hi
    unfold get_status_rows
    rw [mem_sortByLe]
    exact List.mem_map_of_mem _ hi
  · intro row hrow
    unfold get_status_rows at hrow
    rw [mem_sortByLe] at hrow
    obtain ⟨i, hi, hrw⟩ := List.mem_map.mp hrow
    obtain ⟨h1, h2, h3, h4⟩ := statusRowOf_facts db i
    refine ⟨i, hi, hrw.symm, ?_, ?_, ?_⟩
    · rw [← hrw]; exact h1
    · rw [← hrw]; exact h3
    · rw [← hrw]
      rw [show (statusRowOf db i).min_stock = i.min_stock from h2]
      exact h4

/-- Witness for the amended C3: on `dbA` the single item's status row is
produced and reported. -/
theorem get_status_rows_spec_witness :
    statusRowOf dbA ⟨1, "Shirt", "L", "Summer", 20⟩ ∈ get_status_rows dbA :=
  (get_status_rows_spec dbA).2.2.1 ⟨1, "Shirt", "L", "Summer", 20⟩ (by decide)

/-! ### Plain substring containment, and its relation to `LIKE` -/

theorem likeMatchF_nil (f : Nat) (s : List Char) :
    likeMatchF [] f s = s.isEmpty := by
  cases f <;> rfl

theorem likeMatchF_congr :
    ∀ (f1 : Nat) (p s : List Char) (f2 : Nat),
      p.length + s.length ≤ f1 → p.length + s.length ≤ f2 →
      likeMatchF p f1 s = likeMatchF p f2 s := by
  intro f1
  induction f1 with
  | zero =>
    intro p s f2 h1 h2
    cases p with
    | nil => rw [likeMatchF_nil, likeMatchF_nil]
    | cons c p' =>
      simp only [List.length_cons] at h1
      omega
  | succ a ih =>
    intro p s f2 h1 h2
    cases p with
    | nil => rw [likeMatchF_nil, likeMatchF_nil]
    | cons c p' =>
      cases f2 with
      | zero =>
        simp only [List.length_cons] at h2
        omega
      | succ b =>
        simp only [List.length_cons] at h1 h2
        by_cases hc : c = '%'
        · cases s with
          | nil =>
            show (if c = '%' then likeMatchF p' a [] || false else false)
              = (if c = '%' then likeMatchF p' b [] || false else false)
            rw [if_pos hc, if_pos hc,
              ih p' [] b (by simp at h1 ⊢; omega) (by simp at h2 ⊢; omega)]
          | cons d s' =>
            simp only [List.length_cons] at h1 h2
            show (if c = '%' then
                likeMatchF p' a (d :: s') || likeMatchF (c :: p') a s'
              else (if c = '_' then true else asciiLower c == asciiLower d)
                && likeMatchF p' a s')
              = (if c = '%' then
                likeMatchF p' b (d :: s') || likeMatchF (c :: p') b s'
              else (if c = '_' then true else asciiLower c == asciiLower d)
                && likeMatchF p' b s')
            rw [if_pos hc, if_pos hc,
              ih p' (d :: s') b (by simp only [List.length_cons]; omega)
                (by simp only [List.length_cons]; omega),
              ih (c :: p') s' b (by simp only [List.length_cons]; omega)
                (by simp only [List.length_cons]; omega)]
        · cases s with
          | nil =>
            show (if c = '%' then likeMatchF p' a [] || false else false)
              = (if c = '%' then likeMatchF p' b [] || false else false)
            rw [if_neg hc, if_neg hc]
          | cons d s' =>
            simp only [List.length_cons] at h1 h2
            show (if c = '%' then
                likeMatchF p' a (d :: s') || likeMatchF (c :: p') a s'
              else (if c = '_' then true else asciiLower c == asciiLower d)
                && likeMatchF p' a s')
              = (if c = '%' then
                likeMatchF p' b (d :: s') || likeMatchF (c :: p') b s'
              else (if c = '_' then true else asciiLower c == asciiLower d)
                && likeMatchF p' b s')
            rw [if_neg hc, if_neg hc,
              ih p' s' b (by omega) (by omega)]

theorem likeMatch_univ (p : List Char) (f : Nat) (s : List Char)
    (h : p.length + s.length ≤ f) : likeMatchF p f s = likeMatch p s :=
  likeMatchF_congr f p s (p.length + s.length) h le_rfl

theorem likeMatch_nil (s : List Char) : likeMatch [] s = s.isEmpty :=
  likeMatchF_nil _ s

theorem likeMatch_cons_nil (c : Char) (p : List Char) :
    likeMatch (c :: p) []
      = if c = '%' then likeMatch p [] else false := by
  show (if c = '%' then likeMatchF p p.length [] || false else false)
    = (if c = '%' then likeMatch p [] else false)
  by_cases hc : c = '%'
  · rw [if_pos hc, if_pos hc, Bool.or_false]
    exact likeMatch_univ p p.length [] (by simp)
  · rw [if_neg hc, if_neg hc]

theorem likeMatch_cons_cons (c : Char) (p : List Char) (d : Char)
    (s : List Char) :
    likeMatch (c :: p) (d :: s)
      = if c = '%' then likeMatch p (d :: s) || likeMatch (c :: p) s
        else (if c = '_' then true else asciiLower c == asciiLower d)
          && likeMatch p s := by
  show (if c = '%' then
      likeMatchF p ((c :: p).length + s.length) (d :: s)
        || likeMatchF (c :: p) ((c :: p).length + s.length) s
    else (if c = '_' then true else asciiLower c == asciiLower d)
      && likeMatchF p ((c :: p).length + s.length) s) = _
  rw [likeMatch_univ p _ (d :: s) (by simp only [List.length_cons]; omega),
    likeMatch_univ (c :: p) _ s (by simp only [List.length_cons]; omega),
    likeMatch_univ p _ s (by simp only [List.length_cons]; omega)]

theorem likeMatch_of_match (p s : List Char) (h : likeMatch p s = true) :
    likeMatch ('%' :: p) s = true := by
  cases s with
  | nil =>
    rw [likeMatch_cons_nil, if_pos rfl]
    exact h
  | cons d s' =>
    rw [likeMatch_cons_cons, if_pos rfl, Bool.or_eq_true]
    exact Or.inl h

theorem likeMatch_percent_cons (p s : List Char) (c : Char)
    (h : likeMatch ('%' :: p) s = true) :
    likeMatch ('%' :: p) (c :: s) = true := by
  rw [likeMatch_cons_cons, if_pos rfl, Bool.or_eq_true]
  exact Or.inr h

theorem likeMatch_skip (p u s : List Char)
    (h : likeMatch ('%' :: p) s = true) :
    likeMatch ('%' :: p) (u ++ s) = true := by
  induction u with
  | nil => simpa using h
  | cons c u ih => exact likeMatch_percent_cons _ _ c ih

theorem likeMatch_literal_prefix (w p s : List Char)
    (h : likeMatch p s = true) :
    likeMatch (w ++ p) (w ++ s) = true := by
  induction w with
  | nil => simpa using h
  | cons c w ih =>
    show likeMatch (c :: (w ++ p)) (c :: (w ++ s)) = true
    rw [likeMatch_cons_cons]
    by_cases hc : c = '%'
    · rw [if_pos hc, Bool.or_eq_true]
      refine Or.inr ?_
      subst hc
      exact likeMatch_of_match _ _ ih
    · rw [if_neg hc]
      have hself : (if c = '_' then true
          else asciiLower c == asciiLower c) = true := by
        by_cases hu : c = '_'
        · rw [if_pos hu]
        · rw [if_neg hu]
          simp
      simp [hself, ih]

theorem likeMatch_percent_all (v : List Char) : likeMatch ['%'] v = true := by
  induction v with
  | nil => decide
  | cons c v ih => exact likeMatch_percent_cons [] v c ih

theorem prefixMatches_decomp (n : List Char) :
    ∀ t : List Char, prefixMatches n t = true → ∃ v, t = n ++ v := by
  induction n with
  | nil => exact fun t _ => ⟨t, rfl⟩
  | cons a n ih =>
    intro t h
    cases t with
    | nil => exact absurd h (by simp [prefixMatches])
    | cons b t =>
      simp only [prefixMatches, Bool.and_eq_true, beq_iff_eq] at h
      obtain ⟨hab, hrec⟩ := h
      obtain ⟨v, hv⟩ := ih t hrec
      exact ⟨v, by rw [hv, hab]; rfl⟩

theorem substringAt_decomp (n : List Char) :
    ∀ h : List Char, substringAt n h = true → ∃ u v, h = u ++ n ++ v := by
  intro h
  induction h with
  | nil =>
    intro hs
    obtain ⟨v, hv⟩ := prefixMatches_decomp n [] (by simpa [substringAt] using hs)
    exact ⟨[], v, by simpa using hv⟩
  | cons c h ih =>
    intro hs
    rw [substringAt, Bool.or_eq_true] at hs
    rcases hs with h1 | h1
    · obtain ⟨v, hv⟩ := prefixMatches_decomp n (c :: h) h1
      exact ⟨[], v, by simpa using hv⟩
    · obtain ⟨u, v, huv⟩ := ih h1
      exact ⟨c :: u, v, by simp [huv]⟩

/-- A literal occurrence always makes the `LIKE '%…%'` pattern match:
containment is sufficient for the SQL filter (the converse fails —
`LIKE` also matches across ASCII case and treats `%`/`_` as wildcards). -/
theorem likeContains_of_containsSubstring (f s : String)
    (h : containsSubstring f s = true) : likeContains f s = true := by
  obtain ⟨u, v, huv⟩ := substringAt_decomp f.data s.data h
  unfold likeContains
  rw [huv, List.append_assoc]
  apply likeMatch_skip
  apply likeMatch_of_match
  exact likeMatch_literal_prefix f.data ['%'] v (likeMatch_percent_all v)

theorem historyRowOf_no_item (db : DB) (nf ef : Option String)
    (t : TransactionRow)
    (hf : db.items.find? (fun x => x.id == t.item_id) = none) :
    historyRowOf db nf ef t = none := by
  simp only [historyRowOf, hf]

theorem historyRowOf_none_some (db : DB) (t : TransactionRow) (i : ItemRow)
    (hf : db.items.find? (fun x => x.id == t.item_id) = some i) :
    historyRowOf db none none t = some (baseRow db t i) := by
  simp only [historyRowOf, hf, baseRow]
  rfl

theorem historyRowOf_some_eq (db : DB) (f : String) (t : TransactionRow)
    (i : ItemRow)
    (hf : db.items.find? (fun x => x.id == t.item_id) = some i) :
    historyRowOf db (some f) none t
      = if f == "" || likeContains f i.name then some (baseRow db t i)
        else none := by
  simp only [historyRowOf, hf, Bool.and_true, baseRow]

/-- The name filter keeps a joined row exactly when the empty-filter
query produces it and the stored `LIKE` pattern accepts the row's item
name. -/
theorem historyRowOf_name_filter (db : DB) (f : String) (t : TransactionRow)
    (r : HistoryRow) :
    historyRowOf db (some f) none t = some r ↔
      (historyRowOf db none none t = some r ∧
       (f == "" || likeContains f r.name) = true) := by
  cases hf : db.items.find? (fun x => x.id == t.item_id) with
  | none =>
    rw [historyRowOf_no_item db (some f) none t hf,
        historyRowOf_no_item db none none t hf]
    simp
  | some i =>
    rw [historyRowOf_some_eq db f t i hf, historyRowOf_none_some db t i hf]
    by_cases hc : (f == "" || likeContains f i.name) = true
    · rw [if_pos hc]
      constructor
      · intro h
        obtain rfl : baseRow db t i = r := Option.some.inj h
        exact ⟨rfl, hc⟩
      · rintro ⟨h, _⟩
        exact h
    · rw [if_neg hc]
      constructor
      · intro h
        cases h
      · rintro ⟨h, hlike⟩
        obtain rfl : baseRow db t i = r := Option.some.inj h
        exact absurd hlike hc

/-- C8 counterexample: the claim says every returned row's item name
contains the filter as a substring.  SQLite `LIKE` is ASCII
case-insensitive, so on `dbB` the filter `"SHIRT"` returns the `"Shirt"`
row although `"Shirt"` does not contain `"SHIRT"`. -/
theorem search_transactions_case_fold :
    ((search_transactions dbB (some "SHIRT") none).map (fun r => r.name)
        = ["Shirt"]) ∧
    containsSubstring "SHIRT" "Shirt" = false := by
  decide

/-- C8 (amended): `search_transactions` orders its rows by creation
timestamp descending (for any filters); with a name filter `f` a row is
returned iff the unfiltered join produces it and `f` is empty or the
`LIKE '%f%'` pattern accepts the row's item name (substring matching up
to ASCII case and the `%`/`_` wildcards); in particular every joined row
whose item name literally contains `f` IS returned; and with no filters
every joined transaction row is returned. -/
theorem search_transactions_spec (db : DB) (f : String) (nf ef : Option String) :
    (search_transactions db nf ef).Pairwise (fun a b => histLe a b = true) ∧
    (∀ r : HistoryRow,
        r ∈ search_transactions db (some f) none ↔
          (r ∈ db.transactions.filterMap (historyRowOf db none none) ∧
           (f = "" ∨ likeContains f r.name = true))) ∧
    (∀ r ∈ db.transactions.filterMap (historyRowOf db none none),
        containsSubstring f r.name = true →
        r ∈ search_transactions db (some f) none) ∧
    (∀ r : HistoryRow,
        r ∈ search_transactions db none none ↔
          r ∈ db.transactions.filterMap (historyRowOf db none none)) := by
  have hmem : ∀ r : HistoryRow,
      r ∈ search_transactions db (some f) none ↔
        (r ∈ db.transactions.filterMap (historyRowOf db none none) ∧
         (f = "" ∨ likeContains f r.name = true)) := by
    intro r
    unfold search_transactions
    rw [mem_sortByLe, List.mem_filterMap]
    constructor
    · rintro ⟨t, ht, hrow⟩
      rw [historyRowOf_name_filter] at hrow
      obtain ⟨hbase, hcond⟩ := hrow
      refine ⟨List.mem_filterMap.mpr ⟨t, ht, hbase⟩, ?_⟩
      rw [Bool.or_eq_true] at hcond
      rcases hcond with h1 | h1
      · exact Or.inl (by simpa using h1)
      · exact Or.inr h1
    · rintro ⟨hbase, hcond⟩
      obtain ⟨t, ht, hrow⟩ := List.mem_filterMap.mp hbase
      refine ⟨t, ht, ?_⟩
      rw [historyRowOf_name_filter]
      refine ⟨hrow, ?_⟩
      rw [Bool.or_eq_true]
      rcases hcond with h1 | h1
      · exact Or.inl (by simp [h1])
      · exact Or.inr h1
  refine ⟨pairwise_sortByLe histLe histLe_total histLe_trans _, hmem, ?_, ?_⟩
  · intro r hr hc
    exact (hmem r).mpr
      ⟨hr, Or.inr (likeContains_of_containsSubstring f r.name hc)⟩
  · intro r
    unfold search_transactions
    rw [mem_sortByLe]

/-- Witness for the amended C8: the `stock_in` row of `dbB` is returned
by `history(nameFilter="Shirt")` since its item name contains "Shirt". -/
theorem search_transactions_spec_witness :
    (⟨1, "Shirt", "L", "Summer", "", "stock_in", 50, "", 0, "入库/补货"⟩
        : HistoryRow)
      ∈ search_transactions dbB (some "Shirt") none :=
  (search_transactions_spec dbB "Shirt" none none).2.2.1
    ⟨1, "Shirt", "L", "Summer", "", "stock_in", 50, "", 0, "入库/补货"⟩
    (by decide) (by decide)

end Inventory
